import Mathlib

/-!
Verification of the stateful core of a market-data dashboard: the streaming
candle/score buffers (SymbolChart and AnalyticsLab message handlers), the
backtest trade matcher, and the performance calculator (Backtester
`calculateMetrics`).  Prices and statistic values are modelled as exact
rationals; the standard deviation and Sharpe figure, which the source computes
with `Math.sqrt`, live in `ℝ`.
-/

/-- OHLCV candle (spec §3; consumed in `SymbolChart`).  The JS field `open`
is renamed `opn` because `open` is a Lean keyword. -/
structure Candle where
  timestamp : Int
  opn : ℚ
  high : ℚ
  low : ℚ
  close : ℚ
  volume : ℚ
  deriving DecidableEq

/-- JavaScript `array.slice(-n)`: the last `n` elements of the array — except
that for `n = 0`, `slice(-0)` is `slice(0)`, which returns the whole array. -/
def sliceNeg (n : Nat) (l : List α) : List α :=
  if n = 0 then l else l.drop (l.length - n)

/-- The candle ordering used by `fetchCandles`'s comparator
`(a, b) => a.timestamp - b.timestamp`. -/
abbrev candleLE (a b : Candle) : Prop :=
  a.timestamp ≤ b.timestamp

instance : IsTotal Candle candleLE :=
  ⟨fun a b => Int.le_total a.timestamp b.timestamp⟩

instance : IsTrans Candle candleLE :=
  ⟨fun _ _ _ hab hbc => le_trans hab hbc⟩

/-- Historical snapshot load from `SymbolChart.fetchCandles`:
`[...candles].sort((a, b) => a.timestamp - b.timestamp).slice(-maxPoints)`.
JS `Array.prototype.sort` is a stable ascending sort under this comparator;
it is modelled by Mathlib's stable `List.insertionSort`. -/
def loadCandles (maxPoints : Nat) (resp : List Candle) : List Candle :=
  sliceNeg maxPoints (List.insertionSort candleLE resp)

/-- The `candle_update` state transition of `SymbolChart` (the `setCandles`
updater): an empty buffer becomes `[newCandle]`; a candle whose timestamp
equals the last element's replaces the last element; any other candle —
the code has no `<` / `>` comparison, only `===` — falls through to
`[...prev.slice(-(maxPoints - 1)), newCandle]`. -/
def applyCandleUpdate (maxPoints : Nat) (prev : List Candle)
    (newCandle : Candle) : List Candle :=
  match prev.getLast? with
  | none => [newCandle]
  | some last =>
    if last.timestamp = newCandle.timestamp then
      prev.dropLast ++ [newCandle]
    else
      sliceNeg (maxPoints - 1) prev ++ [newCandle]

/-- An externally triggered operation on one (symbol, timeframe) buffer:
a completed historical fetch or one live `candle_update` message. -/
inductive BufOp where
  | load (resp : List Candle)
  | update (c : Candle)
  deriving DecidableEq

/-- Apply one buffer operation. -/
def stepOp (maxPoints : Nat) (l : List Candle) : BufOp → List Candle
  | .load resp => loadCandles maxPoints resp
  | .update c => applyCandleUpdate maxPoints l c

/-- Run a sequence of buffer operations from the initial empty buffer. -/
def runOps (maxPoints : Nat) (ops : List BufOp) : List Candle :=
  ops.foldl (stepOp maxPoints) []

/-- The buffer ordering invariant of spec §4.1: timestamps strictly
increasing along the stored sequence. -/
abbrev SortedLT (l : List Candle) : Prop :=
  l.Pairwise (fun a b => a.timestamp < b.timestamp)

/-- Side conditions under which the code preserves the ordering invariant:
a load response carries pairwise-distinct timestamps, and an update is not
older than the buffer's current last candle (the code appends stale updates
instead of rejecting them, so this cannot be dropped). -/
def okOp (l : List Candle) : BufOp → Bool
  | .load resp => (resp.map Candle.timestamp).Nodup
  | .update c => l.getLast?.all fun a => a.timestamp ≤ c.timestamp

/-- `ValidFrom maxPoints l ops`: every operation in `ops`, run from buffer
state `l`, satisfies `okOp` at the state where it executes. -/
def ValidFrom (maxPoints : Nat) : List Candle → List BufOp → Prop
  | _, [] => True
  | l, op :: rest =>
    okOp l op = true ∧ ValidFrom maxPoints (stepOp maxPoints l op) rest

/-- Backtest signal (spec §3; Backtester.jsx).  `type` is the raw string tag
compared by the code (`"entry"` / `"exit"`). -/
structure Signal where
  type : String
  timestamp : Int
  price : ℚ
  deriving DecidableEq

/-- A matched trade (`{ entry: signal, exit: null }` in the matcher);
`exit` is `none` while the trade is open. -/
structure Trade where
  entry : Signal
  exit : Option Signal
  deriving DecidableEq

/-- One step of the signal fold in `calculateMetrics` (lines 42-50):
`signal.type === "entry" && !currentTrade` opens a trade;
`signal.type === "exit" && currentTrade` closes it and appends it to the
output; every other signal leaves the state unchanged. -/
def stepSignal (acc : List Trade × Option Signal) (signal : Signal) :
    List Trade × Option Signal :=
  match acc with
  | (trades, none) =>
    if signal.type = "entry" then (trades, some signal) else (trades, none)
  | (trades, some e) =>
    if signal.type = "exit" then (trades ++ [⟨e, some signal⟩], none)
    else (trades, some e)

/-- The trade matcher: a single forward pass over the signal list with one
open-trade slot; the fold's final open trade (if any) is discarded. -/
def matchTrades (signalData : List Signal) : List Trade :=
  (signalData.foldl stepSignal ([], none)).1

mutual

/-- Modelled from the spec: the §4.3 algorithm read as a recursive function,
used as the refinement target for `matchTrades`.  With no trade open, an
`entry` opens one and every other signal is discarded. -/
def matchSpec : List Signal → List Trade
  | [] => []
  | s :: rest =>
    if s.type = "entry" then matchOpen s rest else matchSpec rest

/-- Modelled from the spec: companion of `matchSpec` while the trade opened
by `e` is live — an `exit` closes it (emitting the completed trade), every
other signal is discarded, and input ending with the trade still open emits
nothing. -/
def matchOpen (e : Signal) : List Signal → List Trade
  | [] => []
  | s :: rest =>
    if s.type = "exit" then ⟨e, some s⟩ :: matchSpec rest
    else matchOpen e rest

end

/-- Per-trade percentage return:
`((exitPrice - entryPrice) / entryPrice) * 100`.  The code reads
`trade.exit.price` on trades that are all closed; the `getD 0` default is
never reached on matcher output. -/
def pnlOfTrade (trade : Trade) : ℚ :=
  ((trade.exit.map Signal.price).getD 0 - trade.entry.price)
    / trade.entry.price * 100

/-- `trades.map(...)` producing the per-trade return list `tradePnL`. -/
def tradePnL (trades : List Trade) : List ℚ :=
  trades.map pnlOfTrade

/-- `tradePnL.filter((pnl) => pnl > 0)`. -/
def winningOf (pnls : List ℚ) : List ℚ :=
  pnls.filter fun pnl => pnl > 0

/-- `tradePnL.filter((pnl) => pnl < 0)`. -/
def losingOf (pnls : List ℚ) : List ℚ :=
  pnls.filter fun pnl => pnl < 0

/-- Accumulator of the max-drawdown loop; `peak = none` models the JS
initialisation `peak = -Infinity`. -/
structure DDAcc where
  peak : Option ℚ
  maxDrawdown : ℚ
  cumulative : ℚ
  deriving DecidableEq

/-- One iteration of the drawdown loop: accumulate, raise the peak
(a finite cumulative always exceeds `-Infinity`), measure `peak -
cumulative`, keep the maximum. -/
def ddStep (acc : DDAcc) (pnl : ℚ) : DDAcc :=
  let cumulative := acc.cumulative + pnl
  let peak :=
    match acc.peak with
    | none => cumulative
    | some p => if cumulative > p then cumulative else p
  let drawdown := peak - cumulative
  { peak := some peak
    maxDrawdown :=
      if drawdown > acc.maxDrawdown then drawdown else acc.maxDrawdown
    cumulative := cumulative }

/-- The `maxDrawdown` computation of `calculateMetrics` (lines 83-92). -/
def maxDrawdownOf (pnls : List ℚ) : ℚ :=
  (pnls.foldl ddStep ⟨none, 0, 0⟩).maxDrawdown

/-- `avgReturn = totalProfitLoss / trades.length` (with
`tradePnL.length = trades.length`, as `tradePnL` is a `map`). -/
def avgReturnOf (pnls : List ℚ) : ℚ :=
  pnls.sum / pnls.length

/-- Population variance of the returns around `avgReturn` — the divisor is
`trades.length`, not `trades.length - 1` (lines 96-98). -/
def varianceOf (pnls : List ℚ) : ℚ :=
  (pnls.map fun pnl => (pnl - avgReturnOf pnls) ^ 2).sum / pnls.length

/-- `stdDev = Math.sqrt(variance)`. -/
noncomputable def stdDevOf (pnls : List ℚ) : ℝ :=
  Real.sqrt ((varianceOf pnls : ℚ) : ℝ)

/-- `stdDev > 0 ? (avgReturn / stdDev) * Math.sqrt(252) : 0` (line 100).
Source field name: `sharpeRatio`. -/
noncomputable def sharpeOf (pnls : List ℚ) : ℝ :=
  if 0 < stdDevOf pnls then
    ((avgReturnOf pnls : ℚ) : ℝ) / stdDevOf pnls * Real.sqrt 252
  else 0

/-- The record returned by `calculateMetrics`.  The last field is the
source's `sharpeRatio`, shortened to `sharpe` here. -/
structure Stats where
  totalTrades : Nat
  winningTrades : Nat
  losingTrades : Nat
  winRate : ℚ
  totalProfitLoss : ℚ
  avgProfit : ℚ
  avgLoss : ℚ
  maxDrawdown : ℚ
  sharpe : ℝ

/-- The all-zero record returned when no trade was matched (lines 52-64). -/
def zeroStats : Stats :=
  ⟨0, 0, 0, 0, 0, 0, 0, 0, 0⟩

/-- The stats computed from a non-empty matched-trade list
(lines 66-113 of Backtester.jsx). -/
noncomputable def metricsOfTrades (trades : List Trade) : Stats :=
  let pnls := tradePnL trades
  { totalTrades := trades.length
    winningTrades := (winningOf pnls).length
    losingTrades := (losingOf pnls).length
    winRate :=
      if 0 < trades.length then
        ((winningOf pnls).length : ℚ) / (trades.length : ℚ) * 100
      else 0
    totalProfitLoss := pnls.sum
    avgProfit :=
      if (winningOf pnls).length ≠ 0 then
        (winningOf pnls).sum / ((winningOf pnls).length : ℚ)
      else 0
    avgLoss :=
      if (losingOf pnls).length ≠ 0 then
        (losingOf pnls).sum / ((losingOf pnls).length : ℚ)
      else 0
    maxDrawdown := maxDrawdownOf pnls
    sharpe := sharpeOf pnls }

/-- `calculateMetrics(priceData, signalData)` (the price argument is unused
by the metric computation): `null` for an empty signal list, the all-zero
record when matching yields no trades, otherwise the computed stats. -/
noncomputable def calculateMetrics (signalData : List Signal) : Option Stats :=
  if signalData.length = 0 then none
  else
    let trades := matchTrades signalData
    if trades.length = 0 then some zeroStats
    else some (metricsOfTrades trades)

/-- One point of the live z-score stream (AnalyticsLab); `timestamp` is the
epoch-millisecond value of the JS `Date`. -/
structure ScorePoint where
  timestamp : Int
  value : ℚ
  deriving DecidableEq

/-- The `setLiveZScores` updater of AnalyticsLab (lines 36-43):
`{ ...prev, [key]: [...existing, newPoint].slice(-200) }` — append
unconditionally (timestamps are never examined), cap at 200, leave every
other key's list untouched. -/
def applyLiveZScore (prev : String → List ScorePoint) (key : String)
    (p : ScorePoint) : String → List ScorePoint :=
  fun k => if k = key then sliceNeg 200 (prev key ++ [p]) else prev k

/-- A successfully JSON-parsed inbound frame.  Optional fields model JSON
keys that may be absent (`undefined` in the handlers). -/
structure Msg where
  type : String
  symbol : Option String
  timeframe : Option String
  timestamp : Option Int
  z_score : Option ℚ
  candle : Option Candle
  deriving DecidableEq

/-- The buffer-bearing state reachable from one inbound frame: the parsed
message stored by `SocketProvider`, the AnalyticsLab z-score buffers, and
the candle buffer of the subscribed `SymbolChart`. -/
structure AppState where
  lastJsonMessage : Option Msg
  liveZScores : String → List ScorePoint
  candles : List Candle

/-- JS `toLowerCase()` on the ASCII symbol strings this app uses, modelled
as a character-wise lowering (structurally recursive so that concrete
frames evaluate). -/
def jsToLower (s : String) : String :=
  ⟨s.data.map Char.toLower⟩

/-- The `candle_update` effect of `SymbolChart` (part_003 lines 60-96) for a
chart subscribed to `chartSymbol` / `chartTF`: mismatched or absent symbol
or timeframe, or an absent `candle` field, leave the state unchanged. -/
def handleCandleMsg (chartSymbol chartTF : String) (maxPoints : Nat)
    (st : AppState) (m : Msg) : AppState :=
  let messageSymbol := jsToLower (m.symbol.getD "")
  if messageSymbol ≠ jsToLower chartSymbol then st
  else if m.timeframe ≠ some chartTF then st
  else
    match m.candle with
    | none => st
    | some newCandle =>
      { st with candles := applyCandleUpdate maxPoints st.candles newCandle }

/-- The `live_zscore` effect of AnalyticsLab (lines 29-44).  Missing fields
are defaulted, not rejected: `(lastMessage.symbol || "").toLowerCase()`,
a `${tf}` template that renders an absent timeframe as `"undefined"`,
`new Date(lastMessage.timestamp || Date.now())` (`||`, so a `0` timestamp
also falls back to `now`), and `Number(lastMessage.z_score ?? 0)`. -/
def handleZMsg (now : Int) (st : AppState) (m : Msg) : AppState :=
  let symbol := jsToLower (m.symbol.getD "")
  let tf :=
    match m.timeframe with
    | some t => t
    | none => "undefined"
  let key := symbol ++ "_" ++ tf
  let newPoint : ScorePoint :=
    { timestamp :=
        match m.timestamp with
        | some t => if t = 0 then now else t
        | none => now
      value := m.z_score.getD 0 }
  { st with liveZScores := applyLiveZScore st.liveZScores key newPoint }

/-- One inbound websocket frame end to end: `SocketProvider` either fails to
parse (caught; state untouched) or stores the parsed message, after which
the type-matching effect runs; unrecognized types match no effect. -/
def processFrame (chartSymbol chartTF : String) (maxPoints : Nat) (now : Int)
    (st : AppState) (frame : Option Msg) : AppState :=
  match frame with
  | none => st
  | some m =>
    let st1 : AppState := { st with lastJsonMessage := some m }
    if m.type = "candle_update" then
      handleCandleMsg chartSymbol chartTF maxPoints st1 m
    else if m.type = "live_zscore" then handleZMsg now st1 m
    else st1

/-! ## Buffer lemmas -/

lemma sliceNeg_sublist (n : Nat) (l : List α) : (sliceNeg n l).Sublist l := by
  unfold sliceNeg
  split
  · exact List.Sublist.refl l
  · exact List.drop_sublist _ l

lemma length_sliceNeg_le (n : Nat) (l : List α) (h : n ≠ 0) :
    (sliceNeg n l).length ≤ n := by
  unfold sliceNeg
  rw [if_neg h, List.length_drop]
  omega

lemma timestamp_le_getLast {l : List Candle} {la : Candle} (hs : SortedLT l)
    (hla : l.getLast? = some la) : ∀ a ∈ l, a.timestamp ≤ la.timestamp := by
  obtain ⟨ys, rfl⟩ := List.getLast?_eq_some_iff.mp hla
  intro a ha
  rcases List.mem_append.mp ha with h | h
  · exact le_of_lt
      ((List.pairwise_append.mp hs).2.2 a h la (List.mem_singleton_self la))
  · rw [List.mem_singleton.mp h]

lemma applyCandleUpdate_of_getLast_none {prev : List Candle}
    (h : prev.getLast? = none) (mp : Nat) (c : Candle) :
    applyCandleUpdate mp prev c = [c] := by
  unfold applyCandleUpdate
  rw [h]

lemma applyCandleUpdate_of_getLast_some {prev : List Candle} {la : Candle}
    (h : prev.getLast? = some la) (mp : Nat) (c : Candle) :
    applyCandleUpdate mp prev c =
      if la.timestamp = c.timestamp then prev.dropLast ++ [c]
      else sliceNeg (mp - 1) prev ++ [c] := by
  unfold applyCandleUpdate
  rw [h]

lemma applyCandleUpdate_inv {mp : Nat} (h2 : 2 ≤ mp) {prev : List Candle}
    (c : Candle) (hs : SortedLT prev) (hl : prev.length ≤ mp)
    (hord : okOp prev (.update c) = true) :
    SortedLT (applyCandleUpdate mp prev c) ∧
      (applyCandleUpdate mp prev c).length ≤ mp := by
  cases hla : prev.getLast? with
  | none =>
    rw [applyCandleUpdate_of_getLast_none hla]
    exact ⟨List.pairwise_singleton _ _, by simpa using by omega⟩
  | some last =>
    rw [applyCandleUpdate_of_getLast_some hla]
    have hle : last.timestamp ≤ c.timestamp := by
      simp only [okOp, hla, Option.all_some, decide_eq_true_eq] at hord
      exact hord
    by_cases he : last.timestamp = c.timestamp
    · rw [if_pos he]
      obtain ⟨ys, hy⟩ := List.getLast?_eq_some_iff.mp hla
      subst hy
      rw [List.dropLast_concat]
      obtain ⟨hp1, _, hp3⟩ := List.pairwise_append.mp hs
      refine ⟨List.pairwise_append.mpr ⟨hp1, List.pairwise_singleton _ _, ?_⟩, ?_⟩
      · intro a ha b hb
        rw [List.mem_singleton.mp hb, ← he]
        exact hp3 a ha last (List.mem_singleton_self _)
      · rw [List.length_append] at hl ⊢
        exact hl
    · rw [if_neg he]
      have hlt : last.timestamp < c.timestamp := lt_of_le_of_ne hle he
      refine ⟨List.pairwise_append.mpr
        ⟨List.Pairwise.sublist (sliceNeg_sublist _ _) hs,
         List.pairwise_singleton _ _, ?_⟩, ?_⟩
      · intro a ha b hb
        rw [List.mem_singleton.mp hb]
        exact lt_of_le_of_lt
          (timestamp_le_getLast hs hla a
            (List.Sublist.mem ha (sliceNeg_sublist _ _))) hlt
      · have := length_sliceNeg_le (mp - 1) prev (by omega)
        simp only [List.length_append, List.length_singleton]
        omega

lemma loadCandles_inv {mp : Nat} (h1 : mp ≠ 0) (resp : List Candle)
    (hnd : (resp.map Candle.timestamp).Nodup) :
    SortedLT (loadCandles mp resp) ∧ (loadCandles mp resp).length ≤ mp := by
  have hsorted : (List.insertionSort candleLE resp).Pairwise candleLE :=
    List.sorted_insertionSort candleLE resp
  have hperm := List.perm_insertionSort candleLE resp
  have hnd2 : ((List.insertionSort candleLE resp).map Candle.timestamp).Nodup :=
    hnd.perm (hperm.map Candle.timestamp).symm
  have hne : (List.insertionSort candleLE resp).Pairwise
      (fun a b => a.timestamp ≠ b.timestamp) := by
    rw [List.Nodup, List.pairwise_map] at hnd2
    exact hnd2
  have hslt : SortedLT (List.insertionSort candleLE resp) :=
    (hsorted.and hne).imp fun h => lt_of_le_of_ne h.1 h.2
  exact ⟨List.Pairwise.sublist (sliceNeg_sublist _ _) hslt,
    length_sliceNeg_le _ _ h1⟩

lemma validFrom_inv (mp : Nat) (h2 : 2 ≤ mp) (ops : List BufOp) :
    ∀ (l : List Candle), SortedLT l → l.length ≤ mp → ValidFrom mp l ops →
      SortedLT (ops.foldl (stepOp mp) l) ∧
        (ops.foldl (stepOp mp) l).length ≤ mp := by
  induction ops with
  | nil => exact fun l hs hl _ => ⟨hs, hl⟩
  | cons op rest ih =>
    intro l hs hl hv
    obtain ⟨hok, hv'⟩ := hv
    rw [List.foldl_cons]
    cases op with
    | load resp =>
      have hnd : (resp.map Candle.timestamp).Nodup := by
        simpa [okOp] using hok
      obtain ⟨i1, i2⟩ := @loadCandles_inv mp (by omega) resp hnd
      exact ih _ i1 i2 hv'
    | update c =>
      obtain ⟨i1, i2⟩ := applyCandleUpdate_inv h2 c hs hl hok
      exact ih _ i1 i2 hv'

/-! ## C1 -/

/-- C1 (amended).  The claim as stated is false on the code (see the
counterexample): the `candle_update` handler has no out-of-order rejection
branch, so a stale update breaks the strictly-increasing invariant.  The
amended invariant: for any capacity of at least 2 (every configured
capacity — 120, 60, 72 — qualifies) and any sequence of load/update
operations in which each load response has pairwise-distinct timestamps
and each update is not older than the buffer's last candle, the buffer has
strictly increasing timestamps and length at most the capacity; since the
theorem quantifies over every operation sequence and every prefix of a
valid sequence is valid, this bounds the state after every operation. -/
theorem c1_buffer_invariant_inorder (mp : Nat) (ops : List BufOp)
    (h2 : 2 ≤ mp) (hv : ValidFrom mp [] ops) :
    SortedLT (runOps mp ops) ∧ (runOps mp ops).length ≤ mp :=
  validFrom_inv mp h2 ops [] List.Pairwise.nil (by simp) hv

/-- C1 counterexample: from the empty buffer, applying a candle at t=5 and
then a stale candle at t=3 (capacity 60, the configured 1m value) leaves
the buffer `[t=5, t=3]`, which is not strictly increasing — the claimed
invariant fails right after the second `applyUpdate`. -/
theorem c1_buffer_invariant_counterexample :
    ¬ (SortedLT (runOps 60 [BufOp.update ⟨5, 0, 0, 0, 0, 0⟩,
          BufOp.update ⟨3, 0, 0, 0, 0, 0⟩]) ∧
        (runOps 60 [BufOp.update ⟨5, 0, 0, 0, 0, 0⟩,
          BufOp.update ⟨3, 0, 0, 0, 0, 0⟩]).length ≤ 60) := by
  decide

/-- Witness for `c1_buffer_invariant_inorder` at a concrete trace: a load of
two candles (out of order in the response, distinct timestamps) followed by
an in-order update, capacity 60. -/
theorem c1_buffer_invariant_inorder_witness :
    (2 ≤ 60 ∧ ValidFrom 60 []
        [BufOp.load [⟨2, 0, 0, 0, 0, 0⟩, ⟨1, 0, 0, 0, 0, 0⟩],
         BufOp.update ⟨3, 0, 0, 0, 0, 0⟩]) ∧
      (SortedLT (runOps 60
          [BufOp.load [⟨2, 0, 0, 0, 0, 0⟩, ⟨1, 0, 0, 0, 0, 0⟩],
           BufOp.update ⟨3, 0, 0, 0, 0, 0⟩]) ∧
        (runOps 60
          [BufOp.load [⟨2, 0, 0, 0, 0, 0⟩, ⟨1, 0, 0, 0, 0, 0⟩],
           BufOp.update ⟨3, 0, 0, 0, 0, 0⟩]).length ≤ 60) := by
  have hv : ValidFrom 60 []
      [BufOp.load [⟨2, 0, 0, 0, 0, 0⟩, ⟨1, 0, 0, 0, 0, 0⟩],
       BufOp.update ⟨3, 0, 0, 0, 0, 0⟩] :=
    ⟨by decide, by decide, trivial⟩
  exact ⟨⟨by norm_num, hv⟩,
    c1_buffer_invariant_inorder 60 _ (by norm_num) hv⟩

/-! ## C2 -/

/-- C2 counterexample: with the buffer holding a single candle at t=5, an
update at t=3 (strictly less than the last timestamp) is appended, so the
buffer is not left unchanged — the silent-rejection claim is false. -/
theorem c2_out_of_order_counterexample :
    applyCandleUpdate 60 [⟨5, 0, 0, 0, 0, 0⟩] ⟨3, 0, 0, 0, 0, 0⟩
        = [⟨5, 0, 0, 0, 0, 0⟩, ⟨3, 0, 0, 0, 0, 0⟩] ∧
      applyCandleUpdate 60 [⟨5, 0, 0, 0, 0, 0⟩] ⟨3, 0, 0, 0, 0, 0⟩
        ≠ [⟨5, 0, 0, 0, 0, 0⟩] := by
  decide

/-- C2 (amended): an update whose timestamp is strictly less than the last
element's is not rejected — the handler only distinguishes equal from
different timestamps, so the stale candle is appended after the front trim
to capacity − 1, and the buffer now ends in the stale candle. -/
theorem c2_out_of_order_appends (mp : Nat) (prev : List Candle)
    (c la : Candle) (hla : prev.getLast? = some la)
    (hlt : c.timestamp < la.timestamp) :
    applyCandleUpdate mp prev c = sliceNeg (mp - 1) prev ++ [c] ∧
      (applyCandleUpdate mp prev c).getLast? = some c := by
  rw [applyCandleUpdate_of_getLast_some hla, if_neg (ne_of_gt hlt)]
  exact ⟨rfl, List.getLast?_concat _⟩

/-- Witness for `c2_out_of_order_appends`: buffer `[t=5]`, update at t=3,
capacity 60 — the buffer becomes `[t=5, t=3]`. -/
theorem c2_out_of_order_appends_witness :
    (([⟨5, 0, 0, 0, 0, 0⟩] : List Candle).getLast? = some ⟨5, 0, 0, 0, 0, 0⟩ ∧
      (⟨3, 0, 0, 0, 0, 0⟩ : Candle).timestamp
        < (⟨5, 0, 0, 0, 0, 0⟩ : Candle).timestamp) ∧
      (applyCandleUpdate 60 [⟨5, 0, 0, 0, 0, 0⟩] ⟨3, 0, 0, 0, 0, 0⟩
          = sliceNeg 59 [⟨5, 0, 0, 0, 0, 0⟩] ++ [⟨3, 0, 0, 0, 0, 0⟩] ∧
        (applyCandleUpdate 60 [⟨5, 0, 0, 0, 0, 0⟩]
          ⟨3, 0, 0, 0, 0, 0⟩).getLast? = some ⟨3, 0, 0, 0, 0, 0⟩) :=
  ⟨⟨by decide, by decide⟩,
    c2_out_of_order_appends 60 [⟨5, 0, 0, 0, 0, 0⟩] ⟨3, 0, 0, 0, 0, 0⟩
      ⟨5, 0, 0, 0, 0, 0⟩ (by decide) (by decide)⟩

/-! ## C3 -/

/-- C3: on a non-empty buffer within capacity (capacity ≥ 2, as all
configured capacities are), an update at the last element's exact timestamp
replaces that element and keeps the length; a newer update is appended
as-is while the buffer is below capacity, and at capacity it drops the
oldest element so that exactly `capacity` candles remain; and with
capacity 3, applying candles at t=1,2,3,4 in order from the empty buffer
leaves the candles at t=2,3,4. -/
theorem c3_replace_append_evict (mp : Nat) (prev : List Candle)
    (c la : Candle) (h2 : 2 ≤ mp) (hl : prev.length ≤ mp)
    (hla : prev.getLast? = some la) :
    (la.timestamp = c.timestamp →
      applyCandleUpdate mp prev c = prev.dropLast ++ [c] ∧
        (applyCandleUpdate mp prev c).length = prev.length) ∧
    (la.timestamp < c.timestamp →
      (prev.length < mp → applyCandleUpdate mp prev c = prev ++ [c]) ∧
      (prev.length = mp →
        applyCandleUpdate mp prev c = prev.drop 1 ++ [c] ∧
          (applyCandleUpdate mp prev c).length = mp)) ∧
    applyCandleUpdate 3 (applyCandleUpdate 3 (applyCandleUpdate 3
        (applyCandleUpdate 3 [] ⟨1, 0, 0, 0, 0, 0⟩) ⟨2, 0, 0, 0, 0, 0⟩)
        ⟨3, 0, 0, 0, 0, 0⟩) ⟨4, 0, 0, 0, 0, 0⟩
      = [⟨2, 0, 0, 0, 0, 0⟩, ⟨3, 0, 0, 0, 0, 0⟩, ⟨4, 0, 0, 0, 0, 0⟩] := by
  obtain ⟨ys, hy⟩ := List.getLast?_eq_some_iff.mp hla
  have hne : prev ≠ [] := by rw [hy]; simp
  refine ⟨?_, ?_, by decide⟩
  · intro he
    rw [applyCandleUpdate_of_getLast_some hla, if_pos he]
    refine ⟨rfl, ?_⟩
    rw [List.length_append, List.length_dropLast, List.length_singleton]
    have : prev.length ≠ 0 := by
      rw [hy, List.length_append]; simp
    omega
  · intro hlt
    rw [applyCandleUpdate_of_getLast_some hla, if_neg (ne_of_lt hlt)]
    constructor
    · intro hlen
      have hz : prev.length - (mp - 1) = 0 := by omega
      unfold sliceNeg
      rw [if_neg (by omega : ¬ mp - 1 = 0), hz, List.drop_zero]
    · intro hlen
      have ho : prev.length - (mp - 1) = 1 := by omega
      unfold sliceNeg
      rw [if_neg (by omega : ¬ mp - 1 = 0), ho]
      refine ⟨rfl, ?_⟩
      rw [List.length_append, List.length_drop, List.length_singleton]
      omega

/-- Witness for `c3_replace_append_evict`: capacity 3, buffer `[t=1, t=2]`,
last element at t=2. -/
theorem c3_replace_append_evict_witness :
    (2 ≤ 3 ∧ ([⟨1, 0, 0, 0, 0, 0⟩, ⟨2, 0, 0, 0, 0, 0⟩] : List Candle).length ≤ 3 ∧
      ([⟨1, 0, 0, 0, 0, 0⟩, ⟨2, 0, 0, 0, 0, 0⟩] : List Candle).getLast?
        = some ⟨2, 0, 0, 0, 0, 0⟩) ∧
      (((⟨2, 0, 0, 0, 0, 0⟩ : Candle).timestamp
            = (⟨2, 0, 0, 5, 0, 0⟩ : Candle).timestamp →
        applyCandleUpdate 3 [⟨1, 0, 0, 0, 0, 0⟩, ⟨2, 0, 0, 0, 0, 0⟩]
            ⟨2, 0, 0, 5, 0, 0⟩
          = ([⟨1, 0, 0, 0, 0, 0⟩, ⟨2, 0, 0, 0, 0, 0⟩] : List Candle).dropLast
              ++ [⟨2, 0, 0, 5, 0, 0⟩] ∧
        (applyCandleUpdate 3 [⟨1, 0, 0, 0, 0, 0⟩, ⟨2, 0, 0, 0, 0, 0⟩]
            ⟨2, 0, 0, 5, 0, 0⟩).length
          = ([⟨1, 0, 0, 0, 0, 0⟩, ⟨2, 0, 0, 0, 0, 0⟩] : List Candle).length) ∧
      ((⟨2, 0, 0, 0, 0, 0⟩ : Candle).timestamp
            < (⟨2, 0, 0, 5, 0, 0⟩ : Candle).timestamp →
        (([⟨1, 0, 0, 0, 0, 0⟩, ⟨2, 0, 0, 0, 0, 0⟩] : List Candle).length < 3 →
          applyCandleUpdate 3 [⟨1, 0, 0, 0, 0, 0⟩, ⟨2, 0, 0, 0, 0, 0⟩]
              ⟨2, 0, 0, 5, 0, 0⟩
            = [⟨1, 0, 0, 0, 0, 0⟩, ⟨2, 0, 0, 0, 0, 0⟩] ++ [⟨2, 0, 0, 5, 0, 0⟩]) ∧
        (([⟨1, 0, 0, 0, 0, 0⟩, ⟨2, 0, 0, 0, 0, 0⟩] : List Candle).length = 3 →
          applyCandleUpdate 3 [⟨1, 0, 0, 0, 0, 0⟩, ⟨2, 0, 0, 0, 0, 0⟩]
              ⟨2, 0, 0, 5, 0, 0⟩
            = ([⟨1, 0, 0, 0, 0, 0⟩, ⟨2, 0, 0, 0, 0, 0⟩] : List Candle).drop 1
                ++ [⟨2, 0, 0, 5, 0, 0⟩] ∧
          (applyCandleUpdate 3 [⟨1, 0, 0, 0, 0, 0⟩, ⟨2, 0, 0, 0, 0, 0⟩]
              ⟨2, 0, 0, 5, 0, 0⟩).length = 3)) ∧
      applyCandleUpdate 3 (applyCandleUpdate 3 (applyCandleUpdate 3
          (applyCandleUpdate 3 [] ⟨1, 0, 0, 0, 0, 0⟩) ⟨2, 0, 0, 0, 0, 0⟩)
          ⟨3, 0, 0, 0, 0, 0⟩) ⟨4, 0, 0, 0, 0, 0⟩
        = [⟨2, 0, 0, 0, 0, 0⟩, ⟨3, 0, 0, 0, 0, 0⟩, ⟨4, 0, 0, 0, 0, 0⟩]) :=
  ⟨⟨by norm_num, by decide, by decide⟩,
    c3_replace_append_evict 3 _ _ _ (by norm_num) (by decide) (by decide)⟩

/-! ## Matcher lemmas -/

lemma foldl_stepSignal (sigs : List Signal) :
    ∀ (trades : List Trade) (cur : Option Signal),
      (sigs.foldl stepSignal (trades, cur)).1
        = trades ++ (match cur with
          | none => matchSpec sigs
          | some e => matchOpen e sigs) := by
  induction sigs with
  | nil =>
    intro trades cur
    cases cur <;> simp [matchSpec, matchOpen]
  | cons s rest ih =>
    intro trades cur
    cases cur with
    | none =>
      by_cases he : s.type = "entry"
      · rw [List.foldl_cons]
        simp only [stepSignal, if_pos he]
        rw [ih trades (some s)]
        simp [matchSpec, he]
      · by_cases hx : s.type = "exit"
        · rw [List.foldl_cons]
          simp only [stepSignal, if_neg he]
          rw [ih trades none]
          simp [matchSpec, he]
        · rw [List.foldl_cons]
          simp only [stepSignal, if_neg he]
          rw [ih trades none]
          simp [matchSpec, he]
    | some e =>
      by_cases hx : s.type = "exit"
      · rw [List.foldl_cons]
        simp only [stepSignal, if_pos hx]
        rw [ih (trades ++ [({ entry := e, exit := some s } : Trade)]) none]
        simp [matchOpen, hx]
      · rw [List.foldl_cons]
        simp only [stepSignal, if_neg hx]
        rw [ih trades (some e)]
        simp [matchOpen, hx]

lemma matchTrades_eq_matchSpec (sigs : List Signal) :
    matchTrades sigs = matchSpec sigs := by
  unfold matchTrades
  rw [foldl_stepSignal sigs [] none]
  simp

lemma matchSpec_closed (sigs : List Signal) :
    (∀ t ∈ matchSpec sigs, t.exit.isSome) ∧
      (∀ e, ∀ t ∈ matchOpen e sigs, t.exit.isSome) := by
  induction sigs with
  | nil => simp [matchSpec, matchOpen]
  | cons s rest ih =>
    constructor
    · intro t ht
      rw [matchSpec] at ht
      by_cases he : s.type = "entry"
      · rw [if_pos he] at ht
        exact ih.2 s t ht
      · rw [if_neg he] at ht
        exact ih.1 t ht
    · intro e t ht
      rw [matchOpen] at ht
      by_cases hx : s.type = "exit"
      · rw [if_pos hx] at ht
        rcases List.mem_cons.mp ht with h | h
        · rw [h]; rfl
        · exact ih.1 t h
      · rw [if_neg hx] at ht
        exact ih.2 e t ht

lemma matchSpec_flat_sublist (sigs : List Signal) :
    List.Sublist
        ((matchSpec sigs).flatMap fun t => t.entry :: t.exit.toList) sigs ∧
      ∀ e, List.Sublist
        ((matchOpen e sigs).flatMap fun t => t.entry :: t.exit.toList)
        (e :: sigs) := by
  induction sigs with
  | nil =>
    constructor
    · simp [matchSpec]
    · intro e; simp [matchOpen]
  | cons s rest ih =>
    constructor
    · rw [matchSpec]
      by_cases he : s.type = "entry"
      · rw [if_pos he]
        exact ih.2 s
      · rw [if_neg he]
        exact (ih.1).cons s
    · intro e
      rw [matchOpen]
      by_cases hx : s.type = "exit"
      · rw [if_pos hx]
        simp only [List.flatMap_cons, Option.toList_some]
        exact List.Sublist.cons₂ e (List.Sublist.cons₂ s ih.1)
      · rw [if_neg hx]
        exact ((ih.2 e).trans
          (List.Sublist.cons₂ e (List.sublist_cons_self s rest)))

/-! ## C4 -/

/-- C4: the trade matcher is the single-pass, one-open-slot matcher of
§4.3.  (1) `matchTrades` (the code's fold, in which an entry while a trade
is open and an exit while none is open change nothing, and the final open
trade is dropped) equals the spec-level recursion `matchSpec`;
(2) every output trade is closed (non-null exit); (3) the interleaving
`entry₁, exit₁, entry₂, exit₂, …` of the output is a sublist of the input,
so each trade's exit occurs after its entry in input order and the output
lists trades in entry order. -/
theorem c4_trade_matcher (sigs : List Signal) :
    matchTrades sigs = matchSpec sigs ∧
      (∀ t ∈ matchTrades sigs, t.exit.isSome) ∧
      List.Sublist
        ((matchTrades sigs).flatMap fun t => t.entry :: t.exit.toList)
        sigs := by
  refine ⟨matchTrades_eq_matchSpec sigs, ?_, ?_⟩
  · rw [matchTrades_eq_matchSpec]
    exact (matchSpec_closed sigs).1
  · rw [matchTrades_eq_matchSpec]
    exact (matchSpec_flat_sublist sigs).1

/-- Witness for `c4_trade_matcher` on the spec §8 matching example
`[entry@100, exit@110, entry@90, exit@80]`: both matched trades are in the
output, the first trade is closed, and the interleaving is a sublist. -/
theorem c4_trade_matcher_witness :
    matchTrades [⟨"entry", 1, 100⟩, ⟨"exit", 2, 110⟩,
        ⟨"entry", 3, 90⟩, ⟨"exit", 4, 80⟩]
      = matchSpec [⟨"entry", 1, 100⟩, ⟨"exit", 2, 110⟩,
        ⟨"entry", 3, 90⟩, ⟨"exit", 4, 80⟩] ∧
    (⟨⟨"entry", 1, 100⟩, some ⟨"exit", 2, 110⟩⟩ : Trade) ∈
        matchTrades [⟨"entry", 1, 100⟩, ⟨"exit", 2, 110⟩,
          ⟨"entry", 3, 90⟩, ⟨"exit", 4, 80⟩] ∧
    (Trade.exit ⟨⟨"entry", 1, 100⟩, some ⟨"exit", 2, 110⟩⟩).isSome ∧
    List.Sublist
      ((matchTrades [⟨"entry", 1, 100⟩, ⟨"exit", 2, 110⟩,
          ⟨"entry", 3, 90⟩, ⟨"exit", 4, 80⟩]).flatMap
        fun t => t.entry :: t.exit.toList)
      [⟨"entry", 1, 100⟩, ⟨"exit", 2, 110⟩,
        ⟨"entry", 3, 90⟩, ⟨"exit", 4, 80⟩] :=
  ⟨(c4_trade_matcher _).1, by decide,
    (c4_trade_matcher [⟨"entry", 1, 100⟩, ⟨"exit", 2, 110⟩,
        ⟨"entry", 3, 90⟩, ⟨"exit", 4, 80⟩]).2.1 _ (by decide),
    (c4_trade_matcher _).2.2⟩

/-! ## C6 -/

lemma ddStep_maxDrawdown_le (acc : DDAcc) (p : ℚ) :
    acc.maxDrawdown ≤ (ddStep acc p).maxDrawdown := by
  unfold ddStep
  cases hp : acc.peak <;> dsimp only <;> split_ifs <;>
    first | linarith | exact le_refl _

lemma foldl_ddStep_maxDrawdown_mono (pnls : List ℚ) :
    ∀ acc : DDAcc, acc.maxDrawdown ≤ (pnls.foldl ddStep acc).maxDrawdown := by
  induction pnls with
  | nil => exact fun _ => le_refl _
  | cons p rest ih =>
    intro acc
    rw [List.foldl_cons]
    exact le_trans (ddStep_maxDrawdown_le acc p) (ih (ddStep acc p))

/-- C6: `maxDrawdown` walks the cumulative pnl sum tracking the running
peak and reports the largest `peak - cumulative` seen (`maxDrawdownOf`
is exactly that loop); it is never negative, and on the pnl sequence
`[+10, +5, -20, +3]` it equals 20. -/
theorem c6_max_drawdown :
    (∀ pnls : List ℚ, 0 ≤ maxDrawdownOf pnls) ∧
      maxDrawdownOf [10, 5, -20, 3] = 20 := by
  constructor
  · intro pnls
    exact le_trans (le_refl 0) (foldl_ddStep_maxDrawdown_mono pnls ⟨none, 0, 0⟩)
  · norm_num [maxDrawdownOf, ddStep]

/-! ## Sharpe lemmas -/

lemma sum_of_all_eq {l : List ℚ} {c : ℚ} (h : ∀ x ∈ l, x = c) :
    l.sum = l.length * c := by
  induction l with
  | nil => simp
  | cons a t ih =>
    simp only [List.sum_cons, List.length_cons]
    rw [h a (List.mem_cons_self a t),
      ih fun x hx => h x (List.mem_cons_of_mem a hx)]
    push_cast
    ring

lemma varianceOf_nonneg (pnls : List ℚ) : 0 ≤ varianceOf pnls := by
  unfold varianceOf
  apply div_nonneg
  · apply List.sum_nonneg
    intro x hx
    obtain ⟨p, _, rfl⟩ := List.mem_map.mp hx
    positivity
  · positivity

lemma varianceOf_eq_zero_of_const {pnls : List ℚ}
    (h : ∀ x ∈ pnls, ∀ y ∈ pnls, x = y) : varianceOf pnls = 0 := by
  cases pnls with
  | nil => simp [varianceOf]
  | cons a t =>
    have hall : ∀ x ∈ a :: t, x = a :=
      fun x hx => h x hx a (List.mem_cons_self a t)
    have hlen : (((a :: t).length : ℚ)) ≠ 0 := by
      simp only [List.length_cons]
      push_cast
      positivity
    have havg : avgReturnOf (a :: t) = a := by
      unfold avgReturnOf
      rw [sum_of_all_eq hall]
      exact mul_div_cancel_left₀ a hlen
    unfold varianceOf
    rw [havg]
    have hz : ((a :: t).map fun pnl => (pnl - a) ^ 2).sum = 0 := by
      apply List.sum_eq_zero
      intro x hx
      obtain ⟨p, hp, rfl⟩ := List.mem_map.mp hx
      rw [hall p hp]
      ring
    rw [hz, zero_div]

lemma stdDevOf_nonneg (pnls : List ℚ) : 0 ≤ stdDevOf pnls :=
  Real.sqrt_nonneg _

lemma stdDevOf_sq (pnls : List ℚ) :
    stdDevOf pnls ^ 2 = ((varianceOf pnls : ℚ) : ℝ) :=
  Real.sq_sqrt (by exact_mod_cast varianceOf_nonneg pnls)

lemma stdDevOf_eq_zero_of_const {pnls : List ℚ}
    (h : ∀ x ∈ pnls, ∀ y ∈ pnls, x = y) : stdDevOf pnls = 0 := by
  unfold stdDevOf
  rw [varianceOf_eq_zero_of_const h]
  rw [show (((0 : ℚ) : ℝ)) = 0 by push_cast; rfl]
  exact Real.sqrt_zero

/-! ## C5 -/

/-- C5: the Sharpe figure of the stats record is
`(avgReturn / stdDev) * sqrt 252` when the standard deviation is non-zero
and exactly 0 when it is zero, where `avgReturn` divides the summed pnl by
the trade count and `stdDev` is the square root of the population variance
(divisor `totalTrades`, witnessed by the square identity); in particular a
pnl list with all values identical forces `stdDev = 0` and Sharpe exactly
0. -/
theorem c5_sharpe (trades : List Trade) (h : trades ≠ []) :
    (metricsOfTrades trades).sharpe = sharpeOf (tradePnL trades) ∧
    avgReturnOf (tradePnL trades)
      = (metricsOfTrades trades).totalProfitLoss
          / ((metricsOfTrades trades).totalTrades : ℚ) ∧
    (stdDevOf (tradePnL trades) = 0 → sharpeOf (tradePnL trades) = 0) ∧
    (stdDevOf (tradePnL trades) ≠ 0 →
      sharpeOf (tradePnL trades)
        = ((avgReturnOf (tradePnL trades) : ℚ) : ℝ)
            / stdDevOf (tradePnL trades) * Real.sqrt 252) ∧
    stdDevOf (tradePnL trades) ^ 2
      = ((varianceOf (tradePnL trades) : ℚ) : ℝ) ∧
    ((∀ x ∈ tradePnL trades, ∀ y ∈ tradePnL trades, x = y) →
      stdDevOf (tradePnL trades) = 0 ∧ sharpeOf (tradePnL trades) = 0) := by
  have hzero : stdDevOf (tradePnL trades) = 0 → sharpeOf (tradePnL trades) = 0 := by
    intro h0
    unfold sharpeOf
    rw [if_neg]
    rw [h0]
    exact lt_irrefl 0
  refine ⟨rfl, ?_, hzero, ?_, stdDevOf_sq _, ?_⟩
  · unfold avgReturnOf metricsOfTrades
    simp [tradePnL]
  · intro hne
    have hpos : 0 < stdDevOf (tradePnL trades) :=
      lt_of_le_of_ne (stdDevOf_nonneg _) (Ne.symm hne)
    unfold sharpeOf
    rw [if_pos hpos]
  · intro hc
    have h0 := stdDevOf_eq_zero_of_const hc
    exact ⟨h0, hzero h0⟩

/-- Witness for `c5_sharpe`: a single closed trade (entry 100, exit 110);
its pnl list `[10]` has zero variance, so the Sharpe figure is exactly 0. -/
theorem c5_sharpe_witness :
    ([(⟨⟨"entry", 1, 100⟩, some ⟨"exit", 2, 110⟩⟩ : Trade)] ≠ ([] : List Trade)) ∧
      ((∀ x ∈ tradePnL [(⟨⟨"entry", 1, 100⟩, some ⟨"exit", 2, 110⟩⟩ : Trade)],
          ∀ y ∈ tradePnL [(⟨⟨"entry", 1, 100⟩, some ⟨"exit", 2, 110⟩⟩ : Trade)],
          x = y) →
        stdDevOf (tradePnL [(⟨⟨"entry", 1, 100⟩, some ⟨"exit", 2, 110⟩⟩ : Trade)]) = 0 ∧
          sharpeOf (tradePnL [(⟨⟨"entry", 1, 100⟩, some ⟨"exit", 2, 110⟩⟩ : Trade)]) = 0) ∧
      (metricsOfTrades [(⟨⟨"entry", 1, 100⟩, some ⟨"exit", 2, 110⟩⟩ : Trade)]).sharpe = 0 := by
  have hmain := c5_sharpe [(⟨⟨"entry", 1, 100⟩, some ⟨"exit", 2, 110⟩⟩ : Trade)]
    (by decide)
  have hconst : ∀ x ∈ tradePnL [(⟨⟨"entry", 1, 100⟩, some ⟨"exit", 2, 110⟩⟩ : Trade)],
      ∀ y ∈ tradePnL [(⟨⟨"entry", 1, 100⟩, some ⟨"exit", 2, 110⟩⟩ : Trade)],
      x = y := by
    simp [tradePnL]
  refine ⟨by decide, hmain.2.2.2.2.2, ?_⟩
  rw [hmain.1]
  exact (hmain.2.2.2.2.2 hconst).2

/-! ## C7 -/

lemma filter_partition_length (pnls : List ℚ) :
    (winningOf pnls).length + (losingOf pnls).length
        + (pnls.filter fun pnl => pnl = 0).length = pnls.length := by
  induction pnls with
  | nil => simp [winningOf, losingOf]
  | cons a t ih =>
    simp only [winningOf, losingOf] at ih ⊢
    simp only [List.filter_cons, decide_eq_true_eq]
    rcases lt_trichotomy a 0 with h | h | h
    · rw [if_neg (not_lt.mpr h.le), if_pos h, if_neg (ne_of_lt h)]
      simp only [List.length_cons]
      omega
    · rw [if_neg (by simp [h]), if_neg (by simp [h]), if_pos h]
      simp only [List.length_cons]
      omega
    · rw [if_pos h, if_neg (not_lt.mpr h.le), if_neg (ne_of_gt h)]
      simp only [List.length_cons]
      omega

/-- C7: per-trade return and bucket statistics of the performance
calculator, for a non-empty all-closed trade list with non-zero entry
prices: the pnl of a closed trade is `(exit - entry) / entry * 100`;
`winRate` is the positive-pnl count over the trade count times 100;
winning (pnl > 0) and losing (pnl < 0) counts together with the
zero-pnl trades partition `totalTrades`, so a zero-pnl trade counts
toward neither bucket but toward the total; and each average is 0 when
its bucket is empty and the bucket mean otherwise. -/
theorem c7_per_trade_stats (trades : List Trade) (h : trades ≠ [])
    (hNZ : ∀ t ∈ trades, t.entry.price ≠ 0) :
    (∀ t ∈ trades, ∀ s : Signal, t.exit = some s →
      pnlOfTrade t = (s.price - t.entry.price) / t.entry.price * 100) ∧
    (metricsOfTrades trades).winRate
      = ((winningOf (tradePnL trades)).length : ℚ) / (trades.length : ℚ) * 100 ∧
    (metricsOfTrades trades).winningTrades
        + (metricsOfTrades trades).losingTrades
        + ((tradePnL trades).filter fun pnl => pnl = 0).length
      = (metricsOfTrades trades).totalTrades ∧
    ((winningOf (tradePnL trades)).length = 0 →
      (metricsOfTrades trades).avgProfit = 0) ∧
    ((winningOf (tradePnL trades)).length ≠ 0 →
      (metricsOfTrades trades).avgProfit
        = (winningOf (tradePnL trades)).sum
            / ((winningOf (tradePnL trades)).length : ℚ)) ∧
    ((losingOf (tradePnL trades)).length = 0 →
      (metricsOfTrades trades).avgLoss = 0) ∧
    ((losingOf (tradePnL trades)).length ≠ 0 →
      (metricsOfTrades trades).avgLoss
        = (losingOf (tradePnL trades)).sum
            / ((losingOf (tradePnL trades)).length : ℚ)) := by
  have hlen : 0 < trades.length := List.length_pos.mpr h
  refine ⟨?_, ?_, ?_, ?_, ?_, ?_, ?_⟩
  · intro t ht s hs
    simp [pnlOfTrade, hs]
  · simp [metricsOfTrades, hlen]
  · have hpart := filter_partition_length (tradePnL trades)
    have hmap : (tradePnL trades).length = trades.length := by
      simp [tradePnL]
    simp only [metricsOfTrades]
    omega
  · intro h0
    simp [metricsOfTrades, h0]
  · intro h0
    simp [metricsOfTrades, h0]
  · intro h0
    simp [metricsOfTrades, h0]
  · intro h0
    simp [metricsOfTrades, h0]

/-- Witness for `c7_per_trade_stats` on the spec §8 matching example's two
closed trades (entry 100 / exit 110, entry 90 / exit 80): pnls are
`[10, -100/9]`, so the win rate evaluates to 50. -/
theorem c7_per_trade_stats_witness :
    ([(⟨⟨"entry", 1, 100⟩, some ⟨"exit", 2, 110⟩⟩ : Trade),
        ⟨⟨"entry", 3, 90⟩, some ⟨"exit", 4, 80⟩⟩] ≠ ([] : List Trade)) ∧
      (∀ t ∈ [(⟨⟨"entry", 1, 100⟩, some ⟨"exit", 2, 110⟩⟩ : Trade),
          ⟨⟨"entry", 3, 90⟩, some ⟨"exit", 4, 80⟩⟩], t.entry.price ≠ 0) ∧
      (metricsOfTrades [(⟨⟨"entry", 1, 100⟩, some ⟨"exit", 2, 110⟩⟩ : Trade),
          ⟨⟨"entry", 3, 90⟩, some ⟨"exit", 4, 80⟩⟩]).winRate = 50 := by
  refine ⟨by decide, by decide, ?_⟩
  have hm := (c7_per_trade_stats
    [(⟨⟨"entry", 1, 100⟩, some ⟨"exit", 2, 110⟩⟩ : Trade),
      ⟨⟨"entry", 3, 90⟩, some ⟨"exit", 4, 80⟩⟩]
    (by decide) (by decide)).2.1
  rw [hm]
  have hp : tradePnL [(⟨⟨"entry", 1, 100⟩, some ⟨"exit", 2, 110⟩⟩ : Trade),
      ⟨⟨"entry", 3, 90⟩, some ⟨"exit", 4, 80⟩⟩] = [10, -100/9] := by
    norm_num [tradePnL, pnlOfTrade]
  rw [hp]
  norm_num [winningOf]

/-! ## C8 -/

/-- C8 counterexample: on the empty signal list the Trade Matcher output is
empty, yet `calculateMetrics` returns `null` (here `none`) — not a stats
record with all counts and rates zero, as the claim states. -/
theorem c8_empty_signals_counterexample :
    matchTrades [] = [] ∧ calculateMetrics [] = none :=
  ⟨rfl, rfl⟩

/-- C8 (amended): when the signal list is non-empty and matching produces
no trades, `calculateMetrics` returns the record with every count and rate
zero, with no division performed; for the empty signal list it instead
returns `null` (`none`) — still without raising or dividing, but with no
record at all (the totality of `calculateMetrics` models the absence of
exceptions). -/
theorem c8_no_trades_zero_stats (sigs : List Signal) (h1 : sigs ≠ [])
    (h2 : matchTrades sigs = []) :
    calculateMetrics sigs = some zeroStats ∧
      zeroStats.totalTrades = 0 ∧ zeroStats.winningTrades = 0 ∧
      zeroStats.losingTrades = 0 ∧ zeroStats.winRate = 0 ∧
      zeroStats.totalProfitLoss = 0 ∧ zeroStats.avgProfit = 0 ∧
      zeroStats.avgLoss = 0 ∧ zeroStats.maxDrawdown = 0 ∧
      zeroStats.sharpe = 0 := by
  have hlen : ¬ sigs.length = 0 := by
    simpa using h1
  refine ⟨?_, rfl, rfl, rfl, rfl, rfl, rfl, rfl, rfl, rfl⟩
  unfold calculateMetrics
  rw [if_neg hlen]
  simp [h2]

/-- Witness for `c8_no_trades_zero_stats`: a lone exit signal matches no
trade, and the calculator returns the all-zero record. -/
theorem c8_no_trades_zero_stats_witness :
    ([(⟨"exit", 1, 100⟩ : Signal)] ≠ ([] : List Signal)) ∧
      matchTrades [(⟨"exit", 1, 100⟩ : Signal)] = [] ∧
      calculateMetrics [(⟨"exit", 1, 100⟩ : Signal)] = some zeroStats :=
  ⟨by decide, by decide,
    (c8_no_trades_zero_stats [(⟨"exit", 1, 100⟩ : Signal)]
      (by decide) (by decide)).1⟩

/-! ## C9 -/

/-- C9: the Live Score Buffer appends every received point — the update
function never examines timestamps, so a point whose timestamp equals an
existing one is still appended, never merged or replaced — keeps at most
the most recent 200 points of the touched key (the unconditional `drop`
form subsumes both the below-cap append and the oldest-first eviction),
ends with the new point, and leaves every other key's buffer unchanged. -/
theorem c9_live_zscore_buffer (prev : String → List ScorePoint)
    (key : String) (p : ScorePoint) :
    applyLiveZScore prev key p key
        = (prev key ++ [p]).drop ((prev key).length + 1 - 200) ∧
      (applyLiveZScore prev key p key).length ≤ 200 ∧
      (applyLiveZScore prev key p key).getLast? = some p ∧
      ∀ k, k ≠ key → applyLiveZScore prev key p k = prev k := by
  have h1 : applyLiveZScore prev key p key = sliceNeg 200 (prev key ++ [p]) := by
    unfold applyLiveZScore
    rw [if_pos rfl]
  have hk : (prev key).length + 1 - 200 ≤ (prev key).length := by
    omega
  have h2 : applyLiveZScore prev key p key
      = (prev key ++ [p]).drop ((prev key).length + 1 - 200) := by
    rw [h1]
    unfold sliceNeg
    rw [if_neg (by norm_num),
      show (prev key ++ [p]).length = (prev key).length + 1 from by
        rw [List.length_append, List.length_singleton]]
  refine ⟨h2, ?_, ?_, ?_⟩
  · rw [h1]
    exact length_sliceNeg_le _ _ (by norm_num)
  · rw [h2, List.drop_append_of_le_length hk, List.getLast?_concat]
  · intro k hkne
    unfold applyLiveZScore
    rw [if_neg hkne]

/-- Witness for `c9_live_zscore_buffer`: appending the first point to the
`btcusdt_1m` buffer leaves the `ethusdt_1m` buffer empty and stores the
point. -/
theorem c9_live_zscore_buffer_witness :
    applyLiveZScore (fun _ => ([] : List ScorePoint)) "btcusdt_1m"
          (⟨0, 1⟩ : ScorePoint) "btcusdt_1m"
        = (([] : List ScorePoint) ++ [(⟨0, 1⟩ : ScorePoint)]).drop
            (([] : List ScorePoint).length + 1 - 200) ∧
      (applyLiveZScore (fun _ => ([] : List ScorePoint)) "btcusdt_1m"
          (⟨0, 1⟩ : ScorePoint) "btcusdt_1m").getLast?
        = some (⟨0, 1⟩ : ScorePoint) ∧
      ("ethusdt_1m" ≠ "btcusdt_1m") ∧
      applyLiveZScore (fun _ => ([] : List ScorePoint)) "btcusdt_1m"
          (⟨0, 1⟩ : ScorePoint) "ethusdt_1m" = [] :=
  ⟨(c9_live_zscore_buffer (fun _ => ([] : List ScorePoint)) "btcusdt_1m"
      (⟨0, 1⟩ : ScorePoint)).1,
    (c9_live_zscore_buffer (fun _ => ([] : List ScorePoint)) "btcusdt_1m"
      (⟨0, 1⟩ : ScorePoint)).2.2.1,
    by decide,
    (c9_live_zscore_buffer (fun _ => ([] : List ScorePoint)) "btcusdt_1m"
      (⟨0, 1⟩ : ScorePoint)).2.2.2 "ethusdt_1m" (by decide)⟩

/-! ## C10 -/

/-- C10 counterexample: a parsed `live_zscore` frame with every data field
missing (`symbol`, `timeframe`, `timestamp`, `z_score` all absent) is not
dropped — the handler defaults the fields and appends a point with value 0
and the current time under the key `"_undefined"`, so buffer state does
change on a recognized message with missing required fields. -/
theorem c10_missing_fields_applied_counterexample :
    (processFrame "btcusdt" "1m" 60 1000
        ⟨none, fun _ => [], []⟩
        (some ⟨"live_zscore", none, none, none, none, none⟩)).liveZScores
        "_undefined"
      = [⟨1000, 0⟩] ∧
      (⟨none, fun _ => [], []⟩ : AppState).liveZScores "_undefined" = [] := by
  constructor
  · rfl
  · rfl

/-- C10 (amended): an unparseable frame is dropped with no state change at
all, and a `candle_update` missing its `candle` field — or any frame of
unrecognized type — changes no buffer (only the stored last parsed message
moves); but `live_zscore` frames are applied with defaults rather than
dropped (see the counterexample).  Totality of `processFrame` models the
absence of escaping exceptions. -/
theorem c10_malformed_frames (chartSymbol chartTF : String) (mp : Nat)
    (now : Int) (st : AppState) :
    processFrame chartSymbol chartTF mp now st none = st ∧
    (∀ m : Msg, m.type = "candle_update" → m.candle = none →
      (processFrame chartSymbol chartTF mp now st (some m)).candles
          = st.candles ∧
        (processFrame chartSymbol chartTF mp now st (some m)).liveZScores
          = st.liveZScores) ∧
    (∀ m : Msg, m.type ≠ "candle_update" → m.type ≠ "live_zscore" →
      (processFrame chartSymbol chartTF mp now st (some m)).candles
          = st.candles ∧
        (processFrame chartSymbol chartTF mp now st (some m)).liveZScores
          = st.liveZScores) := by
  have hred : ∀ m : Msg, processFrame chartSymbol chartTF mp now st (some m)
      = (if m.type = "candle_update" then
          handleCandleMsg chartSymbol chartTF mp
            { st with lastJsonMessage := some m } m
        else if m.type = "live_zscore" then
          handleZMsg now { st with lastJsonMessage := some m } m
        else { st with lastJsonMessage := some m }) :=
    fun _ => rfl
  refine ⟨rfl, ?_, ?_⟩
  · intro m ht hc
    have hcm : handleCandleMsg chartSymbol chartTF mp
        { st with lastJsonMessage := some m } m
        = { st with lastJsonMessage := some m } := by
      unfold handleCandleMsg
      dsimp only
      rw [hc]
      split_ifs <;> rfl
    rw [hred m, if_pos ht, hcm]
    exact ⟨rfl, rfl⟩
  · intro m h1 h2
    rw [hred m, if_neg h1, if_neg h2]
    exact ⟨rfl, rfl⟩

/-- Witness for `c10_malformed_frames`: the initial state, a chart on
`btcusdt`/`1m`, an unparseable frame, and a `candle_update` frame missing
its candle — neither changes any buffer. -/
theorem c10_malformed_frames_witness :
    processFrame "btcusdt" "1m" 60 1000
        (⟨none, fun _ => [], []⟩ : AppState) none
      = (⟨none, fun _ => [], []⟩ : AppState) ∧
      ((⟨"candle_update", none, none, none, none, none⟩ : Msg).type
          = "candle_update" ∧
        (⟨"candle_update", none, none, none, none, none⟩ : Msg).candle
          = none) ∧
      ((processFrame "btcusdt" "1m" 60 1000
          (⟨none, fun _ => [], []⟩ : AppState)
          (some ⟨"candle_update", none, none, none, none, none⟩)).candles
          = (⟨none, fun _ => [], []⟩ : AppState).candles ∧
        (processFrame "btcusdt" "1m" 60 1000
          (⟨none, fun _ => [], []⟩ : AppState)
          (some ⟨"candle_update", none, none, none, none, none⟩)).liveZScores
          = (⟨none, fun _ => [], []⟩ : AppState).liveZScores) :=
  ⟨(c10_malformed_frames "btcusdt" "1m" 60 1000
      (⟨none, fun _ => [], []⟩ : AppState)).1,
    ⟨rfl, rfl⟩,
    (c10_malformed_frames "btcusdt" "1m" 60 1000
      (⟨none, fun _ => [], []⟩ : AppState)).2.1
      ⟨"candle_update", none, none, none, none, none⟩ rfl rfl⟩
